import Mathlib

/-!
Verification of the Rucbase storage-engine core: a shallow embedding of the
LRU replacer (src/replacer/lru_replacer.cpp), the buffer pool manager
(src/storage/buffer_pool_manager.cpp), the disk manager
(src/storage/disk_manager.cpp), the slotted-page record file handle
(src/record/rm_file_handle.cpp) and the record scan (src/record/rm_scan.cpp),
together with theorems settling the listed claims about them.

Machine integers of the C++ code are modelled as `Int`/`Nat`; fallible
operations (C++ exceptions, null returns, bool results) are modelled with
`Option`/`Except`/`Bool`.  Page bytes are `List Nat`.  Maps
(`std::unordered_map`) are association lists; the pool's frame array is a
`List Page` indexed by frame id.
-/

/-- Association-list lookup, modelling `std::unordered_map` lookup:
returns the value of the first entry whose key matches. -/
def alookup {α β : Type} [DecidableEq α] : List (α × β) → α → Option β
  | [], _ => none
  | e :: l, k => if e.1 = k then some e.2 else alookup l k

@[simp] theorem alookup_nil {α β : Type} [DecidableEq α] (k : α) :
    alookup ([] : List (α × β)) k = none := rfl

@[simp] theorem alookup_cons {α β : Type} [DecidableEq α] (e : α × β) (l : List (α × β)) (k : α) :
    alookup (e :: l) k = if e.1 = k then some e.2 else alookup l k := rfl

theorem alookup_filter_ne {α β : Type} [DecidableEq α] (l : List (α × β)) (k k' : α)
    (h : k' ≠ k) : alookup (l.filter (fun e => e.1 ≠ k)) k' = alookup l k' := by
  induction l with
  | nil => rfl
  | cons e l ih =>
    by_cases he : e.1 = k
    · rw [List.filter_cons_of_neg (by simp [he]), ih, alookup_cons,
        if_neg (fun hh : e.1 = k' => h (hh ▸ he))]
    · rw [List.filter_cons_of_pos (by simp [he]), alookup_cons, alookup_cons, ih]

theorem alookup_filter_self {α β : Type} [DecidableEq α] (l : List (α × β)) (k : α) :
    alookup (l.filter (fun e => e.1 ≠ k)) k = none := by
  induction l with
  | nil => rfl
  | cons e l ih =>
    by_cases he : e.1 = k
    · rw [List.filter_cons_of_neg (by simp [he])]; exact ih
    · rw [List.filter_cons_of_pos (by simp [he]), alookup_cons, if_neg he]; exact ih

/-- `(l.set i x).getD i d = x` for an in-bounds index. -/
theorem getD_set_self {α : Type} (l : List α) (i : Nat) (x d : α) (h : i < l.length) :
    (l.set i x).getD i d = x := by
  induction l generalizing i with
  | nil => simp at h
  | cons a l ih =>
    cases i with
    | zero => rfl
    | succ j => exact ih j (Nat.lt_of_succ_lt_succ h)

/-- Setting index `i` does not change reads at a different index `j`. -/
theorem getD_set_ne {α : Type} (l : List α) (i j : Nat) (x d : α) (h : i ≠ j) :
    (l.set i x).getD j d = l.getD j d := by
  induction l generalizing i j with
  | nil => rfl
  | cons a l ih =>
    cases i with
    | zero =>
      cases j with
      | zero => exact absurd rfl h
      | succ j' => rfl
    | succ i' =>
      cases j with
      | zero => rfl
      | succ j' => exact ih i' j' (fun hh => h (by rw [hh]))

/-! ### LRU replacer — src/src/replacer/lru_replacer.cpp

`LRUlist_` is a doubly linked list with the most-recently-unpinned frame at
the front and the victim taken from the back; `LRUhash_` only provides O(1)
membership and erasure, so the state is modelled by the list alone. -/

structure LRUReplacer where
  LRUlist : List Nat
deriving DecidableEq

/-- `LRUReplacer::victim`: fails when no frame is evictable, otherwise
removes and returns the frame at the back of the list. -/
def LRUReplacer.victim (r : LRUReplacer) : Option (Nat × LRUReplacer) :=
  match r.LRUlist.getLast? with
  | none => none
  | some f => some (f, ⟨r.LRUlist.dropLast⟩)

/-- `LRUReplacer::pin`: erase the frame from the list if present, no-op
otherwise. -/
def LRUReplacer.pin (r : LRUReplacer) (f : Nat) : LRUReplacer :=
  ⟨r.LRUlist.erase f⟩

/-- `LRUReplacer::unpin`: no-op if the frame is already tracked, otherwise
insert it at the front (most-recently-unpinned). -/
def LRUReplacer.unpin (r : LRUReplacer) (f : Nat) : LRUReplacer :=
  if f ∈ r.LRUlist then r else ⟨f :: r.LRUlist⟩

/-! ### Buffer pool manager — src/src/storage/buffer_pool_manager.cpp -/

/-- A `PageId` is the pair (file descriptor, page number). -/
abbrev PageId := Int × Int

/-- One frame's cached page: identity, pin count, dirty flag and data bytes.
The C++ `pin_count_` is an `int` that the code never drives below 0 (it
guards with `<= 0`), so it is modelled as `Nat`. -/
structure Page where
  pid : PageId
  pin_count : Nat
  is_dirty : Bool
  data : List Nat
deriving DecidableEq

/-- The frame contents used when a frame id is (unreachably) out of range,
and the reset identity `INVALID_PAGE_ID = -1` used by `delete_page`. -/
def dfltPage : Page := ⟨(-1, -1), 0, false, []⟩

/-- Read the bytes of one on-disk page; an unwritten page reads as empty. -/
def diskRead (d : List (PageId × List Nat)) (pid : PageId) : List Nat :=
  (alookup d pid).getD []

/-- Buffer pool state: the frame array `pages_`, the page table, the free
list, the replacer, plus the disk state and the `DiskManager` per-descriptor
page-number counters (`fd2pageno_`, initially all 0) that `new_page` uses.
`rtrace`/`wtrace` record the disk pages read/written, newest first, so that
"no disk read/write happened" is statable. -/
structure BufferPoolManager where
  pages : List Page
  page_table : List (PageId × Nat)
  free_list : List Nat
  repl : LRUReplacer
  disk : List (PageId × List Nat)
  fd2pageno : List (Int × Int)
  rtrace : List PageId
  wtrace : List PageId
deriving DecidableEq

/-- `BufferPoolManager::find_victim_page`: prefer a frame from the free
list; otherwise ask the replacer for a victim, write the victim back to disk
first if it is dirty, and remove its page-table mapping. -/
def BufferPoolManager.find_victim_page (bpm : BufferPoolManager) :
    Option (Nat × BufferPoolManager) :=
  match bpm.free_list with
  | f :: rest => some (f, { bpm with free_list := rest })
  | [] =>
    match bpm.repl.victim with
    | none => none
    | some (f, r1) =>
      let vp := bpm.pages.getD f dfltPage
      let b1 := { bpm with repl := r1 }
      let b2 :=
        if vp.is_dirty then
          { b1 with disk := (vp.pid, vp.data) :: b1.disk,
                    wtrace := vp.pid :: b1.wtrace,
                    pages := b1.pages.set f { vp with is_dirty := false } }
        else b1
      some (f, { b2 with page_table := b2.page_table.filter (fun e => e.1 ≠ vp.pid) })

/-- `BufferPoolManager::fetch_page`: a cached page just gains a pin and is
removed from replacer eligibility; otherwise a frame is acquired via
`find_victim_page`, the page is read from disk into it, and it is registered
with pin count 1 and a clear dirty flag. -/
def BufferPoolManager.fetch_page (bpm : BufferPoolManager) (pid : PageId) :
    Option (Nat × BufferPoolManager) :=
  match alookup bpm.page_table pid with
  | some f =>
    let p := bpm.pages.getD f dfltPage
    some (f, { bpm with pages := bpm.pages.set f { p with pin_count := p.pin_count + 1 },
                        repl := bpm.repl.pin f })
  | none =>
    match bpm.find_victim_page with
    | none => none
    | some (f, b1) =>
      let p' : Page := ⟨pid, 1, false, diskRead b1.disk pid⟩
      some (f, { b1 with pages := b1.pages.set f p',
                         page_table := (pid, f) :: b1.page_table,
                         repl := b1.repl.pin f,
                         rtrace := pid :: b1.rtrace })

/-- `BufferPoolManager::new_page`: same frame acquisition as `fetch_page`
but the page number comes from `DiskManager::allocate_page` (the monotone
`fd2pageno_` counter) and the frame's data bytes are not touched — no disk
read and no zeroing.  Returns (new page number, frame id, state). -/
def BufferPoolManager.new_page (bpm : BufferPoolManager) (fd : Int) :
    Option (Int × Nat × BufferPoolManager) :=
  match bpm.find_victim_page with
  | none => none
  | some (f, b1) =>
    let pno := (alookup b1.fd2pageno fd).getD 0
    let b2 := { b1 with
      fd2pageno := (fd, pno + 1) :: b1.fd2pageno.filter (fun e => e.1 ≠ fd) }
    let p := b2.pages.getD f dfltPage
    let p' : Page := ⟨(fd, pno), 1, false, p.data⟩
    some (pno, f, { b2 with pages := b2.pages.set f p',
                            page_table := ((fd, pno), f) :: b2.page_table,
                            repl := b2.repl.pin f })

/-- `BufferPoolManager::unpin_page`: returns `false` (leaving the state
untouched) when the page is not cached or its pin count is already 0;
otherwise ORs in the dirty flag, decrements the pin count, and hands the
frame to the replacer when the count reaches 0. -/
def BufferPoolManager.unpin_page (bpm : BufferPoolManager) (pid : PageId) (is_dirty : Bool) :
    Bool × BufferPoolManager :=
  match alookup bpm.page_table pid with
  | none => (false, bpm)
  | some f =>
    let p := bpm.pages.getD f dfltPage
    if p.pin_count = 0 then (false, bpm)
    else
      let p1 := if is_dirty then { p with is_dirty := true } else p
      let p2 := { p1 with pin_count := p1.pin_count - 1 }
      let b1 := { bpm with pages := bpm.pages.set f p2 }
      let b2 := if p2.pin_count = 0 then { b1 with repl := b1.repl.unpin f } else b1
      (true, b2)

/-- Modelled from the spec: the initial buffer pool (constructor not under
src/) — `pool_size` default-initialized frames, an empty page table, every
frame on the free list, an empty replacer, over a given disk state. -/
def initBpm (pool_size : Nat) (d : List (PageId × List Nat)) : BufferPoolManager :=
  { pages := List.replicate pool_size dfltPage
    page_table := []
    free_list := List.range pool_size
    repl := ⟨[]⟩
    disk := d
    fd2pageno := []
    rtrace := []
    wtrace := [] }

/-- Fetch a list of pages in order, failing if any fetch fails. -/
def fetchMany (bpm : BufferPoolManager) : List PageId → Option BufferPoolManager
  | [] => some bpm
  | q :: qs =>
    match bpm.fetch_page q with
    | none => none
    | some (_, b1) => fetchMany b1 qs

/-- Unpin a list of pages in order (with `is_dirty = false`), recording
whether every unpin succeeded. -/
def unpinMany (bpm : BufferPoolManager) : List PageId → Bool × BufferPoolManager
  | [] => (true, bpm)
  | q :: qs =>
    let r1 := bpm.unpin_page q false
    let r2 := unpinMany r1.2 qs
    (r1.1 && r2.1, r2.2)

/-! ### Record file handle — src/src/record/rm_file_handle.cpp

The record layer sits on top of the buffer pool's pin/unpin contract and
only ever reads/writes page bytes through pinned pages, so its state is
modelled as the file header plus a store of pages indexed by page number.
`alloc` is the `DiskManager::allocate_page` counter for this file's
descriptor, consumed by `new_page` inside `create_new_page_handle`. -/

/-- `RM_NO_FREE_PAGE = -1`: sentinel for "no free page". -/
def RM_NO_FREE_PAGE : Int := -1

/-- A record id: page number and slot number (C++ `int`s; the scan uses
`-1` sentinels in both). -/
structure Rid where
  page_no : Int
  slot_no : Int
deriving DecidableEq

/-- Modelled from the spec: the bitmap utility (`Bitmap` class not under
src/) — one bit per slot, set iff the slot holds a live record. -/
def Bitmap.is_set (bm : Int → Bool) (i : Int) : Bool := bm i

/-- Modelled from the spec: `Bitmap::first_bit(b, bm, n)` — first-fit scan
for the lowest position `i < n` whose bit equals `b`, `none` if there is no
such position. -/
def Bitmap.first_bit (b : Bool) (bm : Int → Bool) (n : Int) : Option Int :=
  ((List.range n.toNat).map (fun k => Int.ofNat k)).find? (fun i => bm i == b)

/-- Data-page header: next-free-page link and live-record count. -/
structure RmPageHdr where
  next_free_page_no : Int
  num_records : Int
deriving DecidableEq

/-- One data page: header, bitmap, and the fixed-size record slots. -/
structure RmPage where
  hdr : RmPageHdr
  bitmap : Int → Bool
  slots : Int → List Nat

/-- File header: record size, records per page, bitmap size in bytes, page
count, head of the free-page list. -/
structure RmFileHdr where
  record_size : Nat
  num_records_per_page : Int
  bitmap_size : Int
  num_pages : Int
  first_free_page_no : Int
deriving DecidableEq

/-- Record file handle state: in-memory file header and the page store
(page 0 being the metadata page, never addressed by these operations). -/
structure RmFileHandle where
  file_hdr : RmFileHdr
  pages : Int → RmPage
  alloc : Int

/-- Point update of the page store. -/
def updPages (pf : Int → RmPage) (k : Int) (pg : RmPage) : Int → RmPage :=
  fun q => if q = k then pg else pf q

/-- `RmFileHandle::fetch_page_handle`: pin the page through the buffer pool
and view its header/bitmap/slots (the pool is the page store here). -/
def RmFileHandle.fetch_page_handle (f : RmFileHandle) (page_no : Int) : RmPage :=
  f.pages page_no

/-- `RmFileHandle::create_new_page_handle`: allocate a fresh page number,
zero the page header, clear the bitmap (slot bytes are left as-is), and
increment the file's page count.  Note: the new page is not linked into the
free-page list and `first_free_page_no` is not touched. -/
def RmFileHandle.create_new_page_handle (f : RmFileHandle) : Int × RmFileHandle :=
  let pno := f.alloc
  let old := f.pages pno
  let pg : RmPage :=
    { hdr := ⟨RM_NO_FREE_PAGE, 0⟩, bitmap := fun _ => false, slots := old.slots }
  (pno, { f with pages := updPages f.pages pno pg,
                 alloc := pno + 1,
                 file_hdr := { f.file_hdr with num_pages := f.file_hdr.num_pages + 1 } })

/-- `RmFileHandle::create_page_handle`: the current free-list head if one
exists, else a newly created page. -/
def RmFileHandle.create_page_handle (f : RmFileHandle) : Int × RmFileHandle :=
  if f.file_hdr.first_free_page_no ≠ RM_NO_FREE_PAGE then
    (f.file_hdr.first_free_page_no, f)
  else
    f.create_new_page_handle

/-- `RmFileHandle::get_record`: fail if the bitmap bit is clear, else copy
exactly `record_size` bytes of the slot. -/
def RmFileHandle.get_record (f : RmFileHandle) (rid : Rid) : Option (List Nat) :=
  let ph := f.fetch_page_handle rid.page_no
  if Bitmap.is_set ph.bitmap rid.slot_no then
    some ((ph.slots rid.slot_no).take f.file_hdr.record_size)
  else none

/-- `RmFileHandle::insert_record`: obtain a page with spare capacity, take
the lowest clear bit (fail if none), set it, copy `record_size` bytes in,
bump the live-record count, and — when the page just became exactly full and
is the free-list head — advance the head to the page's next-free link. -/
def RmFileHandle.insert_record (f : RmFileHandle) (buf : List Nat) :
    Option (Rid × RmFileHandle) :=
  let r := f.create_page_handle
  let pno := r.1
  let f1 := r.2
  let ph := f1.pages pno
  match Bitmap.first_bit false ph.bitmap f1.file_hdr.num_records_per_page with
  | none => none
  | some slot_no =>
    let ph1 : RmPage :=
      { hdr := { ph.hdr with num_records := ph.hdr.num_records + 1 },
        bitmap := fun i => if i = slot_no then true else ph.bitmap i,
        slots := fun i => if i = slot_no then buf.take f1.file_hdr.record_size
                          else ph.slots i }
    let f2 := { f1 with pages := updPages f1.pages pno ph1 }
    let f3 :=
      if ph1.hdr.num_records = f2.file_hdr.num_records_per_page ∧
          f2.file_hdr.first_free_page_no = pno then
        { f2 with file_hdr :=
            { f2.file_hdr with first_free_page_no := ph.hdr.next_free_page_no } }
      else f2
    some (⟨pno, slot_no⟩, f3)

/-- `RmFileHandle::release_page_handle`: a page just went full → not-full;
relink it as the new head of the free-page list. -/
def RmFileHandle.release_page_handle (f : RmFileHandle) (pno : Int) : RmFileHandle :=
  let ph := f.pages pno
  let ph1 : RmPage :=
    { ph with hdr := { ph.hdr with next_free_page_no := f.file_hdr.first_free_page_no } }
  { f with pages := updPages f.pages pno ph1,
           file_hdr := { f.file_hdr with first_free_page_no := pno } }

/-- `RmFileHandle::delete_record`: fail if the bit is already clear, else
clear it, decrement the live-record count, and when the page was exactly
full before the delete, relink it as the free-list head. -/
def RmFileHandle.delete_record (f : RmFileHandle) (rid : Rid) : Option RmFileHandle :=
  let ph := f.fetch_page_handle rid.page_no
  if Bitmap.is_set ph.bitmap rid.slot_no then
    let ph1 : RmPage :=
      { ph with hdr := { ph.hdr with num_records := ph.hdr.num_records - 1 },
                bitmap := fun i => if i = rid.slot_no then false else ph.bitmap i }
    let f1 := { f with pages := updPages f.pages rid.page_no ph1 }
    if ph1.hdr.num_records + 1 = f1.file_hdr.num_records_per_page then
      some (f1.release_page_handle rid.page_no)
    else some f1
  else none

/-! ### Record scan — src/src/record/rm_scan.cpp

The scan only inspects bitmaps.  To make the pin/unpin behaviour statable,
each operation also returns the list of buffer-pool events it performs:
`fetch p` for every `fetch_page_handle` (which pins page `p`) and `unpinned p`
for every `unpin_page` call.  The source of `RmScan::next` contains no
`unpin_page` call, which the event traces make visible. -/

inductive ScanEvent where
  | fetch : Int → ScanEvent
  | unpinned : Int → ScanEvent
deriving DecidableEq

/-- Inner bitmap walk of `RmScan::next`: first set bit at position
`start ≤ i < n`, or `none` when the page's slots are exhausted. -/
def scanFindFrom (bm : Int → Bool) (start n : Int) : Option Int :=
  ((List.range (n - start).toNat).map (fun k => start + Int.ofNat k)).find?
    (fun i => Bitmap.is_set bm i)

/-- Outer page loop of `RmScan::next`: while `page_no < num_pages`, fetch
the page, scan its bitmap from the current slot, and on exhaustion move to
the next page with the slot reset to 0.  `fuel` is the exact number of
remaining pages, `(num_pages - page_no).toNat` at entry. -/
def scanLoop (f : RmFileHandle) : Nat → Int → Int → Rid × List ScanEvent
  | 0, _, _ => (⟨-1, -1⟩, [])
  | fuel + 1, pno, slot =>
    if pno < f.file_hdr.num_pages then
      let ph := f.fetch_page_handle pno
      match scanFindFrom ph.bitmap slot f.file_hdr.num_records_per_page with
      | some j => (⟨pno, j⟩, [ScanEvent.fetch pno])
      | none =>
        let r := scanLoop f fuel (pno + 1) 0
        (r.1, ScanEvent.fetch pno :: r.2)
    else (⟨-1, -1⟩, [])

/-- `RmScan::next`: if the file has no data pages mark end; otherwise move
the conceptual cursor (the constructor's `(0, -1)` becomes `(1, -1)`),
advance the slot by one, and walk pages until a set bit is found or pages
are exhausted (end sentinel `page_no = -1`). -/
def RmScan.next (f : RmFileHandle) (rid : Rid) : Rid × List ScanEvent :=
  if f.file_hdr.num_pages ≤ 1 then (⟨-1, -1⟩, [])
  else
    let r1 := if rid.page_no = 0 ∧ rid.slot_no = -1 then (⟨1, -1⟩ : Rid) else rid
    scanLoop f (f.file_hdr.num_pages - r1.page_no).toNat r1.page_no (r1.slot_no + 1)

/-- `RmScan::RmScan`: start from `(0, -1)` and immediately advance to the
first valid record (or end). -/
def RmScan.init (f : RmFileHandle) : Rid × List ScanEvent :=
  RmScan.next f ⟨0, -1⟩

/-- `RmScan::is_end`: the cursor holds the end sentinel. -/
def RmScan.is_end (rid : Rid) : Bool := rid.page_no = -1

/-! ### Disk manager — src/src/storage/disk_manager.cpp -/

/-- Modelled from the spec: the fixed page size from the excluded
common/config header. -/
def PAGE_SIZE : Nat := 4096

/-- One open file's byte contents as the OS sees them: current size and a
byte map (holes read as 0). -/
structure DFile where
  size : Nat
  data : Nat → Nat

/-- `DiskManager::write_page`: seek to `page_no * PAGE_SIZE` and write
exactly `num_bytes` bytes from `buf` (a successful POSIX write to a regular
file, extending it as needed). -/
def DiskManager.write_page (f : DFile) (page_no : Nat) (buf : List Nat) (num_bytes : Nat) :
    DFile :=
  let off := page_no * PAGE_SIZE
  { size := max f.size (off + num_bytes)
    data := fun i => if off ≤ i ∧ i < off + num_bytes then buf.getD (i - off) 0
                     else f.data i }

/-- `DiskManager::read_page`: a target offset at or beyond the current file
size yields a zero-filled buffer (not an error); otherwise POSIX read
returns `min num_bytes (size - off)` bytes and the code throws on a short
read. -/
def DiskManager.read_page (f : DFile) (page_no : Nat) (num_bytes : Nat) :
    Except String (List Nat) :=
  let off := page_no * PAGE_SIZE
  if f.size ≤ off then Except.ok (List.replicate num_bytes 0)
  else
    let got := min num_bytes (f.size - off)
    if got ≠ num_bytes then Except.error "DiskManager read_page Error"
    else Except.ok ((List.range num_bytes).map (fun i => f.data (off + i)))

/-- File-table state of `DiskManager`: the `fd_occupied_` array, the
`fd2path_` and `path2fd_` maps, the set of descriptors open at the OS level,
and the set of existing file paths. -/
structure DM where
  occupied : Int → Bool
  fd2path : List (Int × String)
  path2fd : List (String × Int)
  osOpen : List Int
  files : List String

/-- `MAX_FD = 1024`. -/
def MAX_FD : Int := 1024

/-- Modelled from POSIX `open`: the lowest unused descriptor (0, 1, 2 are
the standard streams and always taken). -/
def freshFd (used : List Int) : Int :=
  (((List.range (used.length + 4)).map (fun n => Int.ofNat n)).find?
    (fun n => 3 ≤ n ∧ n ∉ used)).getD 3

/-- `DiskManager::is_file`. -/
def DM.is_file (dm : DM) (path : String) : Bool := path ∈ dm.files

/-- `DiskManager::open_file`: fail if the path does not exist; open at the
OS level; fail (closing again) if the descriptor is out of range or already
occupied; record the descriptor in `fd_occupied_` and `fd2path_`.  Faithful
to the source, `path2fd_` is not updated. -/
def DM.open_file (dm : DM) (path : String) : Except String (Int × DM) :=
  if ¬ dm.is_file path then Except.error "FileNotFoundError"
  else
    let fd := freshFd dm.osOpen
    let dm1 := { dm with osOpen := fd :: dm.osOpen }
    if MAX_FD ≤ fd then Except.error "Too many files opened"
    else if dm.occupied fd then Except.error "File descriptor already occupied"
    else Except.ok (fd, { dm1 with
      occupied := fun x => if x = fd then true else dm.occupied x,
      fd2path := (fd, path) :: dm.fd2path })

/-- `DiskManager::get_file_fd`: return the `path2fd_` entry if present,
else call `open_file`. -/
def DM.get_file_fd (dm : DM) (file_name : String) : Except String (Int × DM) :=
  match alookup dm.path2fd file_name with
  | none => dm.open_file file_name
  | some fd => Except.ok (fd, dm)

/-! ### Shared lemmas -/

theorem create_page_handle_record_size (f : RmFileHandle) :
    (f.create_page_handle).2.file_hdr.record_size = f.file_hdr.record_size := by
  unfold RmFileHandle.create_page_handle RmFileHandle.create_new_page_handle
  split <;> rfl

/-! ### Claim C1 -/

/-- C1: for every fixed-size payload `buf`, `insert_record(buf)` followed by
`get_record` on the returned `Rid` yields a record whose `record_size` bytes
are identical to `buf` (no intervening operation in between). -/
theorem insert_get_roundtrip (f : RmFileHandle) (buf : List Nat) (rid : Rid)
    (f' : RmFileHandle)
    (hlen : buf.length = f.file_hdr.record_size)
    (h : f.insert_record buf = some (rid, f')) :
    f'.get_record rid = some buf := by
  have hrs := create_page_handle_record_size f
  simp only [RmFileHandle.insert_record] at h
  split at h
  · exact Option.noConfusion h
  next slot hfb =>
    rw [Option.some.injEq, Prod.mk.injEq] at h
    obtain ⟨h1, h2⟩ := h
    subst h1
    subst h2
    simp only [RmFileHandle.get_record, RmFileHandle.fetch_page_handle, Bitmap.is_set]
    split <;> simp [updPages, List.take_take, hrs, ← hlen]

/-- A concrete one-data-page heap file used by the witnesses. -/
def rmW : RmFileHandle :=
  { file_hdr := ⟨2, 2, 1, 1, -1⟩
    pages := fun _ => ⟨⟨-1, 0⟩, fun _ => false, fun _ => []⟩
    alloc := 1 }

def rmWIns : Rid × RmFileHandle :=
  (rmW.insert_record [7, 8]).getD (⟨-1, -1⟩, rmW)

theorem insert_get_roundtrip_witness :
    rmWIns.2.get_record rmWIns.1 = some [7, 8] :=
  insert_get_roundtrip rmW [7, 8] rmWIns.1 rmWIns.2 rfl rfl

/-! ### Claim C6 -/

/-- C6: `unpin_page(page_id, is_dirty)` returns `false` exactly when the
page is not cached or its pin count is already 0, and on every such failure
the entire buffer-pool state is unchanged. -/
theorem unpin_page_fails_iff (bpm : BufferPoolManager) (pid : PageId) (d : Bool) :
    ((bpm.unpin_page pid d).1 = false ↔
      alookup bpm.page_table pid = none ∨
      ∃ fr, alookup bpm.page_table pid = some fr ∧
        (bpm.pages.getD fr dfltPage).pin_count = 0) ∧
    ((bpm.unpin_page pid d).1 = false → (bpm.unpin_page pid d).2 = bpm) := by
  unfold BufferPoolManager.unpin_page
  cases hl : alookup bpm.page_table pid with
  | none => simp [hl]
  | some fr =>
    simp only [hl]
    by_cases hp : (bpm.pages.getD fr dfltPage).pin_count = 0
    · rw [if_pos hp]
      exact ⟨⟨fun _ => Or.inr ⟨fr, rfl, hp⟩, fun _ => rfl⟩, fun _ => rfl⟩
    · rw [if_neg hp]
      constructor
      · constructor
        · intro hfalse; exact absurd hfalse (by simp)
        · intro hr
          rcases hr with h1 | ⟨fr', h2, h3⟩
          · exact Option.noConfusion h1
          · obtain rfl := Option.some.inj h2
            exact absurd h3 hp
      · intro hfalse; exact absurd hfalse (by simp)

/-- A concrete pool with one cached page at pin count 0. -/
def bpmW : BufferPoolManager :=
  { pages := [⟨(3, 1), 0, false, []⟩]
    page_table := [((3, 1), 0)]
    free_list := []
    repl := ⟨[0]⟩
    disk := []
    fd2pageno := []
    rtrace := []
    wtrace := [] }

theorem unpin_page_fails_iff_witness :
    (bpmW.unpin_page (3, 1) false).1 = false ∧
    (bpmW.unpin_page (3, 1) false).2 = bpmW := by
  have h := unpin_page_fails_iff bpmW (3, 1) false
  have hfail : (bpmW.unpin_page (3, 1) false).1 = false :=
    h.1.mpr (Or.inr ⟨0, rfl, rfl⟩)
  exact ⟨hfail, h.2 hfail⟩

/-! ### Claim C5 -/

/-- C5: when the buffer pool evicts a victim frame (free list empty, a
victim chosen), a dirty victim has its current bytes written to disk before
the frame is reassigned, and a clean victim causes no disk write during the
eviction. -/
theorem eviction_writeback (bpm : BufferPoolManager) (f : Nat)
    (b' : BufferPoolManager)
    (hfree : bpm.free_list = [])
    (h : bpm.find_victim_page = some (f, b')) :
    ((bpm.pages.getD f dfltPage).is_dirty = true →
      diskRead b'.disk (bpm.pages.getD f dfltPage).pid =
        (bpm.pages.getD f dfltPage).data ∧
      b'.wtrace = (bpm.pages.getD f dfltPage).pid :: bpm.wtrace) ∧
    ((bpm.pages.getD f dfltPage).is_dirty = false →
      b'.disk = bpm.disk ∧ b'.wtrace = bpm.wtrace) := by
  unfold BufferPoolManager.find_victim_page at h
  rw [hfree] at h
  cases hv : bpm.repl.victim with
  | none => rw [hv] at h; exact Option.noConfusion h
  | some fr =>
    rw [hv] at h
    rw [Option.some.injEq, Prod.mk.injEq] at h
    obtain ⟨h1, h2⟩ := h
    subst h1
    subst h2
    constructor
    · intro hd
      rw [hd]
      simp [diskRead]
    · intro hd
      rw [hd]
      simp

/-- A concrete pool whose only frame holds a dirty, unpinned page. -/
def bpmV : BufferPoolManager :=
  { pages := [⟨(3, 0), 0, true, [9]⟩]
    page_table := [((3, 0), 0)]
    free_list := []
    repl := ⟨[0]⟩
    disk := []
    fd2pageno := []
    rtrace := []
    wtrace := [] }

def bpmVRun : Nat × BufferPoolManager := (bpmV.find_victim_page).getD (0, bpmV)

theorem eviction_writeback_witness :
    diskRead bpmVRun.2.disk (3, 0) = [9] ∧ bpmVRun.2.wtrace = [(3, 0)] :=
  (eviction_writeback bpmV bpmVRun.1 bpmVRun.2 rfl rfl).1 rfl

/-! ### Claim C9 -/

/-- `find_victim_page` never changes the frames' data bytes, nor their
count, nor the read trace (a dirty victim is written back, not re-read). -/
theorem find_victim_page_frame_data (bpm : BufferPoolManager) (f : Nat)
    (b' : BufferPoolManager) (h : bpm.find_victim_page = some (f, b')) :
    b'.pages.length = bpm.pages.length ∧
    (∀ g, (b'.pages.getD g dfltPage).data = (bpm.pages.getD g dfltPage).data) ∧
    b'.rtrace = bpm.rtrace := by
  unfold BufferPoolManager.find_victim_page at h
  cases hfl : bpm.free_list with
  | cons f0 rest =>
    rw [hfl] at h
    rw [Option.some.injEq, Prod.mk.injEq] at h
    obtain ⟨h1, h2⟩ := h
    subst h1
    subst h2
    exact ⟨rfl, fun g => rfl, rfl⟩
  | nil =>
    rw [hfl] at h
    cases hv : bpm.repl.victim with
    | none => rw [hv] at h; exact Option.noConfusion h
    | some fr =>
      rw [hv] at h
      rw [Option.some.injEq, Prod.mk.injEq] at h
      obtain ⟨h1, h2⟩ := h
      subst h1
      subst h2
      by_cases hd : (bpm.pages.getD fr.1 dfltPage).is_dirty
      · rw [if_pos hd]
        refine ⟨List.length_set .., fun g => ?_, rfl⟩
        by_cases hg : fr.1 = g
        · rw [← hg]
          by_cases hlen : fr.1 < bpm.pages.length
          · rw [getD_set_self _ _ _ _ hlen]
          · rw [List.set_eq_of_length_le (Nat.le_of_not_lt hlen)]
        · rw [getD_set_ne _ _ _ _ _ hg]
      · rw [if_neg hd]
        exact ⟨rfl, fun g => rfl, rfl⟩

/-- C9: `new_page` does not initialize the data bytes of the frame it
returns — apart from identity, pin count and dirty flag the frame keeps
whatever its previous occupant left, with no zeroing and no disk read. -/
theorem new_page_keeps_stale_bytes (bpm : BufferPoolManager) (fd : Int)
    (pno : Int) (f : Nat) (b' : BufferPoolManager)
    (hf : f < bpm.pages.length)
    (h : bpm.new_page fd = some (pno, f, b')) :
    (b'.pages.getD f dfltPage).data = (bpm.pages.getD f dfltPage).data ∧
    (b'.pages.getD f dfltPage).pid = (fd, pno) ∧
    (b'.pages.getD f dfltPage).pin_count = 1 ∧
    (b'.pages.getD f dfltPage).is_dirty = false ∧
    b'.rtrace = bpm.rtrace := by
  unfold BufferPoolManager.new_page at h
  cases hv : bpm.find_victim_page with
  | none => rw [hv] at h; exact Option.noConfusion h
  | some fb =>
    obtain ⟨f0, b1⟩ := fb
    rw [hv] at h
    rw [Option.some.injEq, Prod.mk.injEq] at h
    obtain ⟨h1, h2⟩ := h
    rw [Prod.mk.injEq] at h2
    obtain ⟨h2a, h2b⟩ := h2
    subst h1
    subst h2a
    subst h2b
    obtain ⟨hlen, hdata, hrt⟩ := find_victim_page_frame_data bpm f0 b1 hv
    have hflen : f0 < b1.pages.length := hlen ▸ hf
    refine ⟨?_, ?_, ?_, ?_, hrt⟩ <;>
      rw [getD_set_self _ _ _ _ hflen]
    exact hdata f0

/-- A concrete single-frame pool whose free frame holds stale bytes. -/
def bpmN : BufferPoolManager :=
  { pages := [⟨(-1, -1), 0, false, [4, 2]⟩]
    page_table := []
    free_list := [0]
    repl := ⟨[]⟩
    disk := []
    fd2pageno := []
    rtrace := []
    wtrace := [] }

def bpmNRun : Int × Nat × BufferPoolManager := (bpmN.new_page 5).getD (0, 0, bpmN)

theorem new_page_keeps_stale_bytes_witness :
    (bpmNRun.2.2.pages.getD bpmNRun.2.1 dfltPage).data = [4, 2] :=
  (new_page_keeps_stale_bytes bpmN 5 bpmNRun.1 bpmNRun.2.1 bpmNRun.2.2
    (by decide) rfl).1

/-! ### Claim C8 -/

theorem map_range_getD (buf : List Nat) :
    (List.range buf.length).map (fun i => buf.getD i 0) = buf := by
  induction buf with
  | nil => rfl
  | cons a l ih =>
    rw [List.length_cons, List.range_succ_eq_map, List.map_cons, List.map_map]
    exact congrArg (List.cons a) ih

/-- C8: `read_page` with a target offset at or beyond the current file size
fills the buffer with `n` zero bytes and succeeds; and `write_page` followed
by `read_page` at the same (fd, page number) returns exactly the bytes that
were written. -/
theorem read_page_zero_fill_roundtrip :
    (∀ (f : DFile) (pno n : Nat), f.size ≤ pno * PAGE_SIZE →
      DiskManager.read_page f pno n = Except.ok (List.replicate n 0)) ∧
    (∀ (f : DFile) (pno : Nat) (buf : List Nat) (n : Nat), buf.length = n →
      DiskManager.read_page (DiskManager.write_page f pno buf n) pno n =
        Except.ok buf) := by
  constructor
  · intro f pno n h
    simp only [DiskManager.read_page]
    rw [if_pos h]
  · intro f pno buf n hlen
    subst hlen
    simp only [DiskManager.read_page, DiskManager.write_page]
    split
    next hc =>
      have hc' : max f.size (pno * PAGE_SIZE + buf.length) ≤ pno * PAGE_SIZE := hc
      have h1 : pno * PAGE_SIZE + buf.length ≤ pno * PAGE_SIZE :=
        le_trans (Nat.le_max_right _ _) hc'
      have h2 : buf.length = 0 := by omega
      obtain rfl := List.length_eq_zero.mp h2
      rfl
    next hc =>
      have h1 : pno * PAGE_SIZE + buf.length ≤ max f.size (pno * PAGE_SIZE + buf.length) :=
        Nat.le_max_right _ _
      split
      next hgot =>
        exact absurd (Nat.min_eq_left (by omega)) hgot
      next hgot =>
        congr 1
        refine Eq.trans (List.map_congr_left ?_) (map_range_getD buf)
        intro i hi
        rw [List.mem_range] at hi
        show (if pno * PAGE_SIZE ≤ pno * PAGE_SIZE + i ∧
                  pno * PAGE_SIZE + i < pno * PAGE_SIZE + buf.length then
                buf.getD (pno * PAGE_SIZE + i - pno * PAGE_SIZE) 0
              else f.data (pno * PAGE_SIZE + i)) = buf.getD i 0
        rw [if_pos ⟨Nat.le_add_right _ _, by omega⟩]
        congr 1
        omega

/-- An empty file and a two-byte payload used as concrete inputs. -/
def dfW : DFile := ⟨0, fun _ => 0⟩

theorem read_page_zero_fill_roundtrip_witness :
    DiskManager.read_page dfW 1 3 = Except.ok [0, 0, 0] ∧
    DiskManager.read_page (DiskManager.write_page dfW 0 [1, 2] 2) 0 2 =
      Except.ok [1, 2] :=
  ⟨read_page_zero_fill_roundtrip.1 dfW 1 3 (by decide),
   read_page_zero_fill_roundtrip.2 dfW 0 [1, 2] 2 rfl⟩

/-! ### Claims C10 and C7 — free-page-list behaviour -/

theorem first_bit_cleared (n : Int) (h : 0 < n) :
    Bitmap.first_bit false (fun _ => false) n = some 0 := by
  obtain ⟨k, hk⟩ : ∃ k, n.toNat = k + 1 := ⟨n.toNat - 1, by omega⟩
  unfold Bitmap.first_bit
  rw [hk, List.range_succ_eq_map, List.map_cons]
  exact List.find?_cons_of_pos _ rfl

theorem create_page_handle_fresh (f : RmFileHandle)
    (hhead : f.file_hdr.first_free_page_no = RM_NO_FREE_PAGE) :
    f.create_page_handle = f.create_new_page_handle := by
  unfold RmFileHandle.create_page_handle
  rw [if_neg (fun hne => hne hhead)]

/-- On a file whose free list is empty, `insert_record` goes to a freshly
created page: slot 0 of page `alloc`, with the free-list head left at the
"none" sentinel and the page count incremented. -/
theorem insert_record_fresh (f : RmFileHandle) (buf : List Nat)
    (hhead : f.file_hdr.first_free_page_no = RM_NO_FREE_PAGE)
    (halloc : 0 ≤ f.alloc)
    (hrpp : 0 < f.file_hdr.num_records_per_page) :
    ∃ f1, f.insert_record buf = some (⟨f.alloc, 0⟩, f1) ∧
      f1.file_hdr.first_free_page_no = RM_NO_FREE_PAGE ∧
      f1.file_hdr.num_pages = f.file_hdr.num_pages + 1 ∧
      f1.file_hdr.num_records_per_page = f.file_hdr.num_records_per_page ∧
      f1.file_hdr.record_size = f.file_hdr.record_size ∧
      f1.alloc = f.alloc + 1 ∧
      (f1.pages f.alloc).hdr.num_records = 1 := by
  unfold RmFileHandle.insert_record
  rw [create_page_handle_fresh f hhead]
  simp only [RmFileHandle.create_new_page_handle, updPages, eq_self_iff_true, if_true]
  rw [first_bit_cleared _ hrpp]
  have hc : ¬((0 : Int) + 1 = f.file_hdr.num_records_per_page ∧
      f.file_hdr.first_free_page_no = f.alloc) := by
    intro hc
    have h2 := hc.2
    rw [hhead] at h2
    unfold RM_NO_FREE_PAGE at h2
    omega
  refine ⟨_, rfl, ?_, ?_, ?_, ?_, ?_, ?_⟩ <;> rw [if_neg hc] <;>
    first
    | rfl
    | exact hhead
    | simp [updPages]

/-- C10: a page created by `create_new_page_handle` is never linked into the
free-page list (the header's free-list head is untouched), so with an empty
free list each successive `insert_record` allocates a fresh page even though
the previous insert's page still has spare capacity. -/
theorem create_new_page_not_linked :
    (∀ f : RmFileHandle,
      (f.create_new_page_handle).2.file_hdr.first_free_page_no =
        f.file_hdr.first_free_page_no) ∧
    (∀ (f : RmFileHandle) (buf1 buf2 : List Nat) (rid1 rid2 : Rid)
        (f1 f2 : RmFileHandle),
      f.file_hdr.first_free_page_no = RM_NO_FREE_PAGE →
      0 ≤ f.alloc →
      2 ≤ f.file_hdr.num_records_per_page →
      f.insert_record buf1 = some (rid1, f1) →
      f1.insert_record buf2 = some (rid2, f2) →
      rid1.page_no ≠ rid2.page_no ∧
      (f1.pages rid1.page_no).hdr.num_records < f.file_hdr.num_records_per_page ∧
      f2.file_hdr.num_pages = f.file_hdr.num_pages + 2) := by
  constructor
  · intro f; rfl
  · intro f buf1 buf2 rid1 rid2 f1 f2 hhead halloc hrpp h1 h2
    obtain ⟨g1, hg1, hg1head, hg1np, hg1rpp, hg1rs, hg1alloc, hg1num⟩ :=
      insert_record_fresh f buf1 hhead halloc (by omega)
    rw [h1, Option.some.injEq, Prod.mk.injEq] at hg1
    obtain ⟨hrid1, hf1⟩ := hg1
    subst hf1
    subst hrid1
    obtain ⟨g2, hg2, hg2head, hg2np, hg2rpp, hg2rs, hg2alloc, hg2num⟩ :=
      insert_record_fresh f1 buf2 hg1head (by rw [hg1alloc]; omega)
        (by rw [hg1rpp]; omega)
    rw [h2, Option.some.injEq, Prod.mk.injEq] at hg2
    obtain ⟨hrid2, hf2⟩ := hg2
    subst hf2
    subst hrid2
    refine ⟨?_, ?_, ?_⟩
    · show f.alloc ≠ f1.alloc
      rw [hg1alloc]; omega
    · show (f1.pages f.alloc).hdr.num_records < f.file_hdr.num_records_per_page
      rw [hg1num]; omega
    · rw [hg2np, hg1np]; omega

def rmT1 : Rid × RmFileHandle := (rmW.insert_record [7, 8]).getD (⟨-1, -1⟩, rmW)

def rmT2 : Rid × RmFileHandle :=
  (rmT1.2.insert_record [9, 9]).getD (⟨-1, -1⟩, rmT1.2)

theorem create_new_page_not_linked_witness :
    rmT1.1.page_no ≠ rmT2.1.page_no ∧
    (rmT1.2.pages rmT1.1.page_no).hdr.num_records <
      rmW.file_hdr.num_records_per_page ∧
    rmT2.2.file_hdr.num_pages = rmW.file_hdr.num_pages + 2 :=
  create_new_page_not_linked.2 rmW [7, 8] [9, 9] rmT1.1 rmT2.1 rmT1.2 rmT2.2
    rfl (by decide) (by decide) rfl rfl

/-- C7: an `insert_record` that makes a page's live-record count reach
exactly `records_per_page` removes that page from free-list candidacy (when
the page was the head, the head advances to its next-free link, and the head
never ends up naming the filled page); and a `delete_record` on a page that
was exactly full relinks that page as the new free-list head, which is then
the page returned by the immediately following `create_page_handle`. -/
theorem full_unlink_and_delete_relink :
    (∀ (f : RmFileHandle) (buf : List Nat) (rid : Rid) (f' : RmFileHandle),
      (f.file_hdr.first_free_page_no ≠ RM_NO_FREE_PAGE →
        (f.pages f.file_hdr.first_free_page_no).hdr.next_free_page_no ≠
          f.file_hdr.first_free_page_no) →
      0 ≤ f.alloc →
      f.insert_record buf = some (rid, f') →
      (f'.pages rid.page_no).hdr.num_records = f.file_hdr.num_records_per_page →
      f'.file_hdr.first_free_page_no ≠ rid.page_no ∧
      (f.file_hdr.first_free_page_no = rid.page_no →
        f'.file_hdr.first_free_page_no =
          (f.pages rid.page_no).hdr.next_free_page_no)) ∧
    (∀ (f : RmFileHandle) (rid : Rid) (f' : RmFileHandle),
      rid.page_no ≠ RM_NO_FREE_PAGE →
      f.delete_record rid = some f' →
      (f.pages rid.page_no).hdr.num_records = f.file_hdr.num_records_per_page →
      f'.file_hdr.first_free_page_no = rid.page_no ∧
      (f'.create_page_handle).1 = rid.page_no) := by
  constructor
  · intro f buf rid f' hwf halloc h hfull
    by_cases hh : f.file_hdr.first_free_page_no = RM_NO_FREE_PAGE
    · unfold RmFileHandle.insert_record at h
      rw [create_page_handle_fresh f hh] at h
      simp only [RmFileHandle.create_new_page_handle, updPages, eq_self_iff_true,
        if_true] at h
      split at h
      · exact Option.noConfusion h
      next slot hfb =>
        rw [Option.some.injEq, Prod.mk.injEq] at h
        obtain ⟨hrid, hf'⟩ := h
        subst hf'
        subst hrid
        have hc : ¬((0 : Int) + 1 = f.file_hdr.num_records_per_page ∧
            f.file_hdr.first_free_page_no = f.alloc) := by
          intro hc
          have h2 := hc.2
          rw [hh] at h2
          unfold RM_NO_FREE_PAGE at h2
          omega
        constructor
        · rw [if_neg hc]
          show f.file_hdr.first_free_page_no ≠ f.alloc
          rw [hh]
          unfold RM_NO_FREE_PAGE
          omega
        · intro hpre
          have hpre' : f.file_hdr.first_free_page_no = f.alloc := hpre
          rw [hh] at hpre'
          unfold RM_NO_FREE_PAGE at hpre'
          omega
    · have hcp : f.create_page_handle = (f.file_hdr.first_free_page_no, f) := by
        unfold RmFileHandle.create_page_handle
        rw [if_pos hh]
      unfold RmFileHandle.insert_record at h
      rw [hcp] at h
      simp only [updPages, eq_self_iff_true, and_true] at h
      split at h
      · exact Option.noConfusion h
      next slot hfb =>
        rw [Option.some.injEq, Prod.mk.injEq] at h
        obtain ⟨hrid, hf'⟩ := h
        subst hf'
        subst hrid
        have hc : (f.pages f.file_hdr.first_free_page_no).hdr.num_records + 1 =
            f.file_hdr.num_records_per_page := by
          by_cases hc0 : (f.pages f.file_hdr.first_free_page_no).hdr.num_records + 1 =
              f.file_hdr.num_records_per_page
          · exact hc0
          · rw [if_neg hc0] at hfull
            simpa [updPages] using hfull
        constructor
        · rw [if_pos hc]
          show (f.pages f.file_hdr.first_free_page_no).hdr.next_free_page_no ≠
            f.file_hdr.first_free_page_no
          exact hwf hh
        · intro _
          rw [if_pos hc]
  · intro f rid f' hpno h hfull
    simp only [RmFileHandle.delete_record, RmFileHandle.fetch_page_handle,
      Bitmap.is_set, updPages] at h
    split at h
    case isFalse => exact Option.noConfusion h
    case isTrue hbit =>
      rw [if_pos (by omega :
        (f.pages rid.page_no).hdr.num_records - 1 + 1 =
          f.file_hdr.num_records_per_page)] at h
      rw [Option.some.injEq] at h
      subst h
      constructor
      · rfl
      · unfold RmFileHandle.create_page_handle
        split
        · rfl
        next hcond =>
          exact absurd (show rid.page_no = RM_NO_FREE_PAGE from not_not.mp hcond) hpno

/-- A two-page file whose only data page (page 1) is empty and is the
free-list head, with one slot per page. -/
def rmA : RmFileHandle :=
  { file_hdr := ⟨1, 1, 1, 2, 1⟩
    pages := fun _ => ⟨⟨-1, 0⟩, fun _ => false, fun _ => []⟩
    alloc := 2 }

def rmARun : Rid × RmFileHandle := (rmA.insert_record [5]).getD (⟨-1, -1⟩, rmA)

/-- A two-page file whose only data page (page 1) is exactly full and the
free list is empty. -/
def rmB : RmFileHandle :=
  { file_hdr := ⟨1, 1, 1, 2, -1⟩
    pages := fun _ => ⟨⟨-1, 1⟩, fun i => decide (i = 0), fun _ => [5]⟩
    alloc := 2 }

def rmBRun : RmFileHandle := (rmB.delete_record ⟨1, 0⟩).getD rmB

theorem full_unlink_and_delete_relink_witness :
    (rmARun.2.file_hdr.first_free_page_no ≠ rmARun.1.page_no) ∧
    (rmBRun.file_hdr.first_free_page_no = (1 : Int) ∧
      (rmBRun.create_page_handle).1 = (1 : Int)) :=
  ⟨(full_unlink_and_delete_relink.1 rmA [5] rmARun.1 rmARun.2
      (fun _ => by decide) (by decide) rfl (by decide)).1,
   full_unlink_and_delete_relink.2 rmB ⟨1, 0⟩ rmBRun (by decide) rfl (by decide)⟩

/-! ### Claim C2 -/

theorem scanLoop_events_fetch_only (f : RmFileHandle) :
    ∀ (fuel : Nat) (pno slot : Int) (e : ScanEvent),
      e ∈ (scanLoop f fuel pno slot).2 → ∃ p, e = ScanEvent.fetch p := by
  intro fuel
  induction fuel with
  | zero => intro pno slot e he; exact absurd he (List.not_mem_nil e)
  | succ n ih =>
    intro pno slot e he
    unfold scanLoop at he
    split at he
    · simp only [RmFileHandle.fetch_page_handle] at he
      split at he
      · rw [List.mem_singleton] at he
        exact ⟨pno, he⟩
      · rw [List.mem_cons] at he
        rcases he with he | he
        · exact ⟨pno, he⟩
        · exact ih (pno + 1) 0 e he
    · exact absurd he (List.not_mem_nil e)

/-- A heap file with exactly one (empty) data page: `num_pages = 2`, one
slot per page, page 1's bitmap all clear. -/
def rmScanW : RmFileHandle :=
  { file_hdr := ⟨4, 1, 1, 2, -1⟩
    pages := fun _ => ⟨⟨-1, 0⟩, fun _ => false, fun _ => []⟩
    alloc := 2 }

/-- C2: the scan's pin bookkeeping.  Constructing `RmScan` over a file with
one data page fetches (pins) page 1 and reaches the end sentinel, yet its
event trace contains no unpin at all — in fact every event any `next` run
ever emits is a fetch, because the source of `RmScan::next` contains no
`unpin_page` call.  The visited page is left with a raised pin count,
contradicting the claim that every fetched page is unpinned. -/
theorem scan_fetches_without_unpin :
    (RmScan.init rmScanW).2 = [ScanEvent.fetch 1] ∧
    (RmScan.init rmScanW).1 = ⟨-1, -1⟩ ∧
    (∀ (f : RmFileHandle) (rid : Rid) (e : ScanEvent),
      e ∈ (RmScan.next f rid).2 → ∃ p, e = ScanEvent.fetch p) := by
  refine ⟨by decide, by decide, ?_⟩
  intro f rid e he
  unfold RmScan.next at he
  split at he
  · exact absurd he (List.not_mem_nil e)
  · exact scanLoop_events_fetch_only f _ _ _ e he

theorem scan_fetches_without_unpin_witness :
    ∃ p, ScanEvent.fetch 1 = ScanEvent.fetch p :=
  scan_fetches_without_unpin.2.2 rmScanW ⟨0, -1⟩ (ScanEvent.fetch 1)
    (by rw [show (RmScan.next rmScanW ⟨0, -1⟩).2 = [ScanEvent.fetch 1] from rfl]
        exact List.mem_singleton.mpr rfl)

/-! ### Claim C4 -/

/-- File-table state with descriptors 0–2 (the standard streams) taken at
the OS level, nothing tracked by the `DiskManager`, and one existing file. -/
def dmW : DM :=
  { occupied := fun _ => false
    fd2path := []
    path2fd := []
    osOpen := [0, 1, 2]
    files := ["a"] }

def dmRun1 : Int × DM := ((dmW.open_file "a").toOption).getD (0, dmW)

def dmRun2 : Int × DM := ((dmRun1.2.get_file_fd "a").toOption).getD (0, dmRun1.2)

/-- C4: `get_file_fd` on a path that is already open does NOT return the
memoized descriptor — it performs a second OS open and returns a fresh
descriptor.  `open_file` records the descriptor in `fd2path_` but never in
`path2fd_`, which is the map `get_file_fd` consults, so the memoization
check can never hit.  Concretely: after `open_file("a")` returned fd 3,
`get_file_fd("a")` returns fd 4 and the count of OS-open descriptors grows
by one; and in general `open_file` leaves `path2fd_` unchanged. -/
theorem get_file_fd_reopens :
    (dmW.open_file "a" = Except.ok dmRun1 ∧ dmRun1.1 = 3 ∧
      dmRun1.2.get_file_fd "a" = Except.ok dmRun2 ∧ dmRun2.1 = 4 ∧
      dmRun2.2.osOpen.length = dmRun1.2.osOpen.length + 1) ∧
    (∀ (dm : DM) (path : String) (fd : Int) (dm' : DM),
      dm.open_file path = Except.ok (fd, dm') → dm'.path2fd = dm.path2fd) := by
  constructor
  · exact ⟨rfl, rfl, rfl, rfl, rfl⟩
  · intro dm path fd dm' h
    unfold DM.open_file at h
    split at h
    · exact Except.noConfusion h
    · dsimp only at h
      split at h
      · exact Except.noConfusion h
      · split at h
        · exact Except.noConfusion h
        · rw [Except.ok.injEq, Prod.mk.injEq] at h
          obtain ⟨h1, h2⟩ := h
          subst h2
          rfl

theorem get_file_fd_reopens_witness : dmRun1.2.path2fd = dmW.path2fd :=
  get_file_fd_reopens.2 dmW "a" dmRun1.1 dmRun1.2 rfl

/-! ### Claim C3 — LRU eviction order -/

theorem mem_of_getLast?_eq (l : List Nat) (a : Nat) (h : l.getLast? = some a) :
    a ∈ l := by
  obtain ⟨hne, rfl⟩ := List.mem_getLast?_eq_getLast (x := a) (l := l)
    (by rw [h]; exact Option.mem_def.mpr rfl)
  exact List.getLast_mem hne

/-- A fetch of an uncached page while the free list still has a frame `f`:
the page is read into `f` with pin count 1. -/
theorem fetch_page_miss (bpm : BufferPoolManager) (q : PageId) (f : Nat)
    (rest : List Nat)
    (hl : alookup bpm.page_table q = none) (hfl : bpm.free_list = f :: rest) :
    bpm.fetch_page q = some (f, { bpm with
      free_list := rest,
      pages := bpm.pages.set f ⟨q, 1, false, diskRead bpm.disk q⟩,
      page_table := (q, f) :: bpm.page_table,
      repl := bpm.repl.pin f,
      rtrace := q :: bpm.rtrace }) := by
  unfold BufferPoolManager.fetch_page BufferPoolManager.find_victim_page
  rw [hl, hfl]

/-- Unpinning a cached page whose pin count is exactly 1: the count drops to
0 and the frame is handed to the replacer. -/
theorem unpin_page_hit (bpm : BufferPoolManager) (q : PageId) (f : Nat)
    (pid0 : PageId) (dirty0 : Bool) (data0 : List Nat)
    (hl : alookup bpm.page_table q = some f)
    (hp : bpm.pages.getD f dfltPage = ⟨pid0, 1, dirty0, data0⟩) :
    bpm.unpin_page q false =
      (true, { bpm with pages := bpm.pages.set f ⟨pid0, 0, dirty0, data0⟩,
                        repl := bpm.repl.unpin f }) := by
  unfold BufferPoolManager.unpin_page
  rw [hl]
  dsimp only
  rw [hp]
  rfl

/-- A fetch of an uncached page with an empty free list and a clean
least-recently-unpinned frame `f` at the back of the replacer list: `f` is
evicted (its mapping removed, no write-back) and reused for the new page. -/
theorem fetch_page_evict (bpm : BufferPoolManager) (q : PageId) (f : Nat)
    (l : List Nat)
    (hl : alookup bpm.page_table q = none)
    (hfl : bpm.free_list = [])
    (hll : bpm.repl.LRUlist = l ++ [f])
    (hclean : (bpm.pages.getD f dfltPage).is_dirty = false) :
    bpm.fetch_page q = some (f, { bpm with
      pages := bpm.pages.set f ⟨q, 1, false, diskRead bpm.disk q⟩,
      page_table := (q, f) ::
        bpm.page_table.filter (fun e => e.1 ≠ (bpm.pages.getD f dfltPage).pid),
      free_list := bpm.free_list,
      repl := ⟨l.erase f⟩,
      rtrace := q :: bpm.rtrace }) := by
  unfold BufferPoolManager.fetch_page BufferPoolManager.find_victim_page
    LRUReplacer.victim
  rw [hl, hfl, hll, List.getLast?_concat, List.dropLast_concat]
  dsimp only
  rw [hclean]
  rfl

/-- Fetching a list of distinct, uncached pages into a pool whose free list
provides exactly one distinct in-range frame per page: every fetch succeeds
through the free list, each page lands pinned-once in its frame, and no
eviction, disk write or replacer change happens. -/
theorem fetchMany_fresh (todo : List PageId) :
    ∀ (fl : List Nat) (bpm : BufferPoolManager),
      bpm.free_list = fl →
      fl.length = todo.length →
      fl.Nodup →
      (∀ fr ∈ fl, fr < bpm.pages.length) →
      todo.Nodup →
      (∀ q ∈ todo, alookup bpm.page_table q = none) →
      bpm.repl.LRUlist = [] →
      ∃ bpm', fetchMany bpm todo = some bpm' ∧
        bpm'.free_list = [] ∧
        bpm'.repl.LRUlist = [] ∧
        bpm'.pages.length = bpm.pages.length ∧
        bpm'.disk = bpm.disk ∧
        (∀ q, q ∉ todo → alookup bpm'.page_table q = alookup bpm.page_table q) ∧
        (∀ pr ∈ todo.zip fl, alookup bpm'.page_table pr.1 = some pr.2 ∧
          bpm'.pages.getD pr.2 dfltPage = ⟨pr.1, 1, false, diskRead bpm.disk pr.1⟩) ∧
        (∀ fr, fr ∉ fl → bpm'.pages.getD fr dfltPage = bpm.pages.getD fr dfltPage) := by
  induction todo with
  | nil =>
    intro fl bpm hfl hlen _ _ _ _ hll
    have hfle : fl = [] := List.length_eq_zero.mp (by rw [hlen]; rfl)
    subst hfle
    exact ⟨bpm, rfl, hfl, hll, rfl, rfl, fun q _ => rfl,
      fun pr hpr => absurd hpr (List.not_mem_nil pr), fun fr _ => rfl⟩
  | cons q qs ih =>
    intro fl bpm hfl hlen hflnd hbound hnd hlq hll
    cases fl with
    | nil => exact absurd hlen (by simp)
    | cons f fs =>
      have hqnotin : q ∉ qs := (List.nodup_cons.mp hnd).1
      have hfnotin : f ∉ fs := (List.nodup_cons.mp hflnd).1
      have hfetch := fetch_page_miss bpm q f fs (hlq q (List.mem_cons_self q qs)) hfl
      set b1 : BufferPoolManager := { bpm with
        free_list := fs,
        pages := bpm.pages.set f ⟨q, 1, false, diskRead bpm.disk q⟩,
        page_table := (q, f) :: bpm.page_table,
        repl := bpm.repl.pin f,
        rtrace := q :: bpm.rtrace } with hb1
      obtain ⟨bpm', hrun, hfree, hrepl, hlen', hdisk, hpres, hzip, hunt⟩ :=
        ih fs b1 rfl (by simpa using hlen) (List.Nodup.of_cons hflnd)
          (fun fr hfr => by
            show fr < (bpm.pages.set f ⟨q, 1, false, diskRead bpm.disk q⟩).length
            rw [List.length_set]
            exact hbound fr (List.mem_cons_of_mem f hfr))
          (List.Nodup.of_cons hnd)
          (fun q' hq' => by
            show alookup ((q, f) :: bpm.page_table) q' = none
            rw [alookup_cons,
              if_neg (fun he : q = q' => hqnotin (he ▸ hq'))]
            exact hlq q' (List.mem_cons_of_mem q hq'))
          (by show (bpm.repl.pin f).LRUlist = []
              unfold LRUReplacer.pin
              rw [hll]
              rfl)
      have hb1len : b1.pages.length = bpm.pages.length := List.length_set ..
      have hb1disk : b1.disk = bpm.disk := rfl
      refine ⟨bpm', ?_, hfree, hrepl, hlen'.trans hb1len, hdisk.trans hb1disk,
        ?_, ?_, ?_⟩
      · show fetchMany bpm (q :: qs) = some bpm'
        unfold fetchMany
        rw [hfetch]
        exact hrun
      · intro q' hq'
        have h1 : q' ≠ q := fun he => hq' (he ▸ List.mem_cons_self q qs)
        have h2 : q' ∉ qs := fun hm => hq' (List.mem_cons_of_mem _ hm)
        rw [hpres q' h2]
        show alookup ((q, f) :: bpm.page_table) q' = alookup bpm.page_table q'
        rw [alookup_cons, if_neg (fun he : q = q' => h1 he.symm)]
      · intro pr hpr
        rcases List.mem_cons.mp hpr with hpr | hpr
        · subst hpr
          constructor
          · rw [hpres q hqnotin]
            show alookup ((q, f) :: bpm.page_table) q = some f
            rw [alookup_cons, if_pos rfl]
          · rw [hunt f hfnotin]
            show (bpm.pages.set f ⟨q, 1, false, diskRead bpm.disk q⟩).getD f
                dfltPage = _
            rw [getD_set_self _ _ _ _ (hbound f (List.mem_cons_self f fs))]
        · obtain ⟨hzl, hzp⟩ := hzip pr hpr
          exact ⟨hzl, hzp⟩
      · intro fr hfr
        have h1 : fr ≠ f := fun he => hfr (he ▸ List.mem_cons_self f fs)
        have h2 : fr ∉ fs := fun hm => hfr (List.mem_cons_of_mem _ hm)
        rw [hunt fr h2]
        show (bpm.pages.set f ⟨q, 1, false, diskRead bpm.disk q⟩).getD fr
            dfltPage = _
        rw [getD_set_ne _ _ _ _ _ (fun he => h1 he.symm)]

/-- Unpinning (clean) a list of distinct cached pages, each pinned exactly
once in its own frame and not yet evictable: every unpin succeeds, pin
counts drop to 0, and the frames enter the replacer most-recent-first, so
the replacer list ends up holding the frames in reverse unpin order. -/
theorem unpinMany_all (pairs : List (PageId × Nat)) :
    ∀ bpm : BufferPoolManager,
      (pairs.map Prod.fst).Nodup →
      (pairs.map Prod.snd).Nodup →
      (∀ pr ∈ pairs, alookup bpm.page_table pr.1 = some pr.2 ∧
        (bpm.pages.getD pr.2 dfltPage).pin_count = 1 ∧
        pr.2 ∉ bpm.repl.LRUlist ∧ pr.2 < bpm.pages.length) →
      ∃ bpm', unpinMany bpm (pairs.map Prod.fst) = (true, bpm') ∧
        bpm'.page_table = bpm.page_table ∧
        bpm'.free_list = bpm.free_list ∧
        bpm'.disk = bpm.disk ∧
        bpm'.pages.length = bpm.pages.length ∧
        bpm'.repl.LRUlist = (pairs.map Prod.snd).reverse ++ bpm.repl.LRUlist ∧
        (∀ pr ∈ pairs, bpm'.pages.getD pr.2 dfltPage =
          { bpm.pages.getD pr.2 dfltPage with pin_count := 0 }) ∧
        (∀ fr, fr ∉ pairs.map Prod.snd →
          bpm'.pages.getD fr dfltPage = bpm.pages.getD fr dfltPage) := by
  induction pairs with
  | nil =>
    intro bpm _ _ _
    exact ⟨bpm, rfl, rfl, rfl, rfl, rfl, rfl,
      fun pr hpr => absurd hpr (List.not_mem_nil pr), fun fr _ => rfl⟩
  | cons pr0 rest ih =>
    obtain ⟨q, fr⟩ := pr0
    intro bpm hndf hnds hprs
    obtain ⟨hl, hpin, hnotin, hlt⟩ := hprs (q, fr) (List.mem_cons_self _ rest)
    have hqnotin : q ∉ rest.map Prod.fst := (List.nodup_cons.mp hndf).1
    have hfrnotin : fr ∉ rest.map Prod.snd := (List.nodup_cons.mp hnds).1
    have hp : bpm.pages.getD fr dfltPage =
        ⟨(bpm.pages.getD fr dfltPage).pid, 1,
          (bpm.pages.getD fr dfltPage).is_dirty,
          (bpm.pages.getD fr dfltPage).data⟩ := by
      rw [← hpin]
    have hhit := unpin_page_hit bpm q fr _ _ _ hl hp
    have hreplu : (bpm.repl.unpin fr).LRUlist = fr :: bpm.repl.LRUlist := by
      unfold LRUReplacer.unpin
      rw [if_neg hnotin]
    set b1 : BufferPoolManager := { bpm with
      pages := bpm.pages.set fr
        ⟨(bpm.pages.getD fr dfltPage).pid, 0,
          (bpm.pages.getD fr dfltPage).is_dirty,
          (bpm.pages.getD fr dfltPage).data⟩,
      repl := bpm.repl.unpin fr } with hb1
    obtain ⟨bpm', hrun, hpt, hfree, hdisk, hlen', hrepl, hpages, hunt⟩ :=
      ih b1 (List.Nodup.of_cons hndf) (List.Nodup.of_cons hnds)
        (fun pr hpr => by
          have hprne : pr.2 ≠ fr := fun he =>
            hfrnotin (he ▸ List.mem_map_of_mem Prod.snd hpr)
          obtain ⟨h1, h2, h3, h4⟩ := hprs pr (List.mem_cons_of_mem _ hpr)
          refine ⟨h1, ?_, ?_, ?_⟩
          · show ((bpm.pages.set fr _).getD pr.2 dfltPage).pin_count = 1
            rw [getD_set_ne _ _ _ _ _ (fun he => hprne he.symm)]
            exact h2
          · show pr.2 ∉ (bpm.repl.unpin fr).LRUlist
            rw [hreplu]
            intro hmem
            rcases List.mem_cons.mp hmem with he | hmem
            · exact hprne he
            · exact h3 hmem
          · show pr.2 < (bpm.pages.set fr _).length
            rw [List.length_set]
            exact h4)
    have hb1len : b1.pages.length = bpm.pages.length := List.length_set ..
    refine ⟨bpm', ?_, hpt, hfree, hdisk, hlen'.trans hb1len, ?_, ?_, ?_⟩
    · show unpinMany bpm (q :: rest.map Prod.fst) = (true, bpm')
      unfold unpinMany
      rw [hhit]
      dsimp only
      rw [hrun]
      rfl
    · rw [hrepl, hreplu]
      show (rest.map Prod.snd).reverse ++ (fr :: bpm.repl.LRUlist) =
        (fr :: rest.map Prod.snd).reverse ++ bpm.repl.LRUlist
      rw [List.reverse_cons, List.append_assoc]
      rfl
    · intro pr hpr
      rcases List.mem_cons.mp hpr with hpr | hpr
      · subst hpr
        rw [hunt fr hfrnotin]
        show (bpm.pages.set fr _).getD fr dfltPage = _
        rw [getD_set_self _ _ _ _ hlt]
      · have hprne : pr.2 ≠ fr := fun he =>
          hfrnotin (he ▸ List.mem_map_of_mem Prod.snd hpr)
        have hb : b1.pages.getD pr.2 dfltPage = bpm.pages.getD pr.2 dfltPage := by
          show (bpm.pages.set fr _).getD pr.2 dfltPage = _
          exact getD_set_ne _ _ _ _ _ (fun he => hprne he.symm)
        rw [hpages pr hpr, hb]
    · intro fr' hfr'
      have h1 : fr' ≠ fr := fun he => hfr' (he ▸ List.mem_cons_self fr _)
      have h2 : fr' ∉ rest.map Prod.snd := fun hm =>
        hfr' (List.mem_cons_of_mem _ hm)
      rw [hunt fr' h2]
      show (bpm.pages.set fr _).getD fr' dfltPage = _
      exact getD_set_ne _ _ _ _ _ (fun he => h1 he.symm)

theorem zip_range_mem (ps : List PageId) (i : Nat) (hi : i < ps.length) :
    (ps.get ⟨i, hi⟩, i) ∈ ps.zip (List.range ps.length) := by
  have hzl : i < (ps.zip (List.range ps.length)).length := by
    rw [List.length_zip, List.length_range, Nat.min_self]
    exact hi
  have h1 : (ps.zip (List.range ps.length)).get ⟨i, hzl⟩ =
      (ps.get ⟨i, hi⟩,
        (List.range ps.length).get ⟨i, by rw [List.length_range]; exact hi⟩) := by
    apply List.get_zip
  have h2 : (List.range ps.length).get ⟨i, by rw [List.length_range]; exact hi⟩ = i := by
    simp
  rw [h2] at h1
  rw [← h1]
  exact List.get_mem _ i hzl

/-- C3: from an empty pool of size N, fetching N distinct pages p1..pN (all
served from the free list), unpinning each exactly once in order (pin counts
reach 0), then fetching one more distinct page evicts exactly p1 — the
least-recently-unpinned page, sitting in frame 0 with pin count 0 at
eviction — while p2..pN stay cached in their frames; and whenever every
frame in the replacer has pin count 0, the frame selected by eviction also
has pin count 0, so a pinned page is never chosen as victim. -/
theorem lru_evicts_least_recently_unpinned :
    (∀ (d : List (PageId × List Nat)) (ps : List PageId) (p : PageId)
        (hnd : ps.Nodup) (hp : p ∉ ps) (hlen : 0 < ps.length),
      ∃ bpm1 bpm2 bpmF,
        fetchMany (initBpm ps.length d) ps = some bpm1 ∧
        unpinMany bpm1 ps = (true, bpm2) ∧
        (bpm2.pages.getD 0 dfltPage).pid = ps.get ⟨0, hlen⟩ ∧
        (bpm2.pages.getD 0 dfltPage).pin_count = 0 ∧
        bpm2.fetch_page p = some (0, bpmF) ∧
        alookup bpmF.page_table (ps.get ⟨0, hlen⟩) = none ∧
        alookup bpmF.page_table p = some 0 ∧
        (∀ (i : Nat) (hi : i < ps.length), 0 < i →
          alookup bpmF.page_table (ps.get ⟨i, hi⟩) = some i)) ∧
    (∀ (bpm : BufferPoolManager) (f : Nat) (b' : BufferPoolManager),
      (∀ fr ∈ bpm.repl.LRUlist, (bpm.pages.getD fr dfltPage).pin_count = 0) →
      bpm.free_list = [] →
      bpm.find_victim_page = some (f, b') →
      (bpm.pages.getD f dfltPage).pin_count = 0) := by
  constructor
  · intro d ps p hnd hp hlen
    obtain ⟨k, hk⟩ : ∃ k, ps.length = k + 1 := ⟨ps.length - 1, by omega⟩
    obtain ⟨bpm1, hrun1, hfree1, hrepl1, hlen1, hdisk1, hpres1, hzip1, _⟩ :=
      fetchMany_fresh ps (List.range ps.length) (initBpm ps.length d) rfl
        (List.length_range ps.length) (List.nodup_range ps.length)
        (fun fr hfr => by
          show fr < (List.replicate ps.length dfltPage).length
          rw [List.length_replicate]
          exact List.mem_range.mp hfr)
        hnd (fun q _ => rfl) rfl
    have hlen1' : bpm1.pages.length = ps.length := by
      rw [hlen1]
      exact List.length_replicate ..
    have hmapf : (ps.zip (List.range ps.length)).map Prod.fst = ps :=
      List.map_fst_zip ps (List.range ps.length) (by rw [List.length_range])
    have hmaps : (ps.zip (List.range ps.length)).map Prod.snd =
        List.range ps.length :=
      List.map_snd_zip ps (List.range ps.length) (by rw [List.length_range])
    obtain ⟨bpm2, hrun2, hpt2, hfree2, hdisk2, hlen2, hrepl2, hpages2, _⟩ :=
      unpinMany_all (ps.zip (List.range ps.length)) bpm1
        (by rw [hmapf]; exact hnd)
        (by rw [hmaps]; exact List.nodup_range ps.length)
        (fun pr hpr => by
          obtain ⟨hzl, hzp⟩ := hzip1 pr hpr
          refine ⟨hzl, by rw [hzp], ?_, ?_⟩
          · rw [hrepl1]
            exact List.not_mem_nil pr.2
          · rw [hlen1']
            exact List.mem_range.mp (List.of_mem_zip hpr).2)
    rw [hmapf] at hrun2
    rw [hmaps] at hrepl2
    have hmem0 : (ps.get ⟨0, hlen⟩, 0) ∈ ps.zip (List.range ps.length) :=
      zip_range_mem ps 0 hlen
    have h0 : bpm2.pages.getD 0 dfltPage =
        { bpm1.pages.getD 0 dfltPage with pin_count := 0 } := hpages2 _ hmem0
    have h1 : bpm1.pages.getD 0 dfltPage =
        ⟨ps.get ⟨0, hlen⟩, 1, false, diskRead d (ps.get ⟨0, hlen⟩)⟩ :=
      (hzip1 _ hmem0).2
    have hfr0 : bpm2.pages.getD 0 dfltPage =
        ⟨ps.get ⟨0, hlen⟩, 0, false, diskRead d (ps.get ⟨0, hlen⟩)⟩ := by
      rw [h0, h1]
    have hpid : (bpm2.pages.getD 0 dfltPage).pid = ps.get ⟨0, hlen⟩ := by
      rw [hfr0]
    have hlp : alookup bpm2.page_table p = none := by
      rw [hpt2, hpres1 p hp]
      rfl
    have hll2 : bpm2.repl.LRUlist =
        ((List.range k).map Nat.succ).reverse ++ [0] := by
      rw [hrepl2, hrepl1, List.append_nil, hk, List.range_succ_eq_map,
        List.reverse_cons]
    have hclean : (bpm2.pages.getD 0 dfltPage).is_dirty = false := by rw [hfr0]
    have hfree2' : bpm2.free_list = [] := by rw [hfree2, hfree1]
    have hfetchp := fetch_page_evict bpm2 p 0 _ hlp hfree2' hll2 hclean
    refine ⟨bpm1, bpm2, _, hrun1, hrun2, hpid, by rw [hfr0], hfetchp,
      ?_, ?_, ?_⟩
    · show alookup ((p, 0) :: bpm2.page_table.filter
          (fun e => e.1 ≠ (bpm2.pages.getD 0 dfltPage).pid))
        (ps.get ⟨0, hlen⟩) = none
      rw [alookup_cons, if_neg (fun he : p = ps.get ⟨0, hlen⟩ =>
        hp (he ▸ List.get_mem ps 0 hlen)), hpid]
      exact alookup_filter_self _ _
    · show alookup ((p, 0) :: bpm2.page_table.filter
          (fun e => e.1 ≠ (bpm2.pages.getD 0 dfltPage).pid)) p = some 0
      rw [alookup_cons, if_pos rfl]
    · intro i hi hipos
      show alookup ((p, 0) :: bpm2.page_table.filter
          (fun e => e.1 ≠ (bpm2.pages.getD 0 dfltPage).pid))
        (ps.get ⟨i, hi⟩) = some i
      rw [alookup_cons, if_neg (fun he : p = ps.get ⟨i, hi⟩ =>
        hp (he ▸ List.get_mem ps i hi)), hpid]
      have hne0 : ps.get ⟨i, hi⟩ ≠ ps.get ⟨0, hlen⟩ := by
        intro he
        have hfin := (List.Nodup.get_inj_iff hnd).mp he
        have hi0 : i = 0 := by simpa using hfin
        omega
      rw [alookup_filter_ne _ _ _ hne0, hpt2]
      exact (hzip1 _ (zip_range_mem ps i hi)).1
  · intro bpm f b' hinv hfl hv
    unfold BufferPoolManager.find_victim_page at hv
    rw [hfl] at hv
    unfold LRUReplacer.victim at hv
    cases hgl : bpm.repl.LRUlist.getLast? with
    | none => rw [hgl] at hv; exact Option.noConfusion hv
    | some f0 =>
      rw [hgl] at hv
      obtain ⟨h1, _⟩ := Prod.mk.inj (Option.some.inj hv)
      subst h1
      exact hinv f0 (mem_of_getLast?_eq _ _ hgl)

def c3ps : List PageId := [(3, 1), (3, 2)]

def c3bpm1 : BufferPoolManager :=
  (fetchMany (initBpm c3ps.length []) c3ps).getD (initBpm c3ps.length [])

def c3bpm2 : BufferPoolManager := (unpinMany c3bpm1 c3ps).2

def c3bpmF : BufferPoolManager := ((c3bpm2.fetch_page (3, 3)).getD (0, c3bpm2)).2

theorem lru_evicts_least_recently_unpinned_witness :
    alookup c3bpmF.page_table ((3, 1) : PageId) = none ∧
    alookup c3bpmF.page_table ((3, 3) : PageId) = some 0 ∧
    (c3bpm2.pages.getD 0 dfltPage).pin_count = 0 := by
  obtain ⟨b1, b2, bF, h1, h2, hpid, hpin, hf, hnone, hsome, _⟩ :=
    lru_evicts_least_recently_unpinned.1 [] c3ps (3, 3)
      (by decide) (by decide) (by decide)
  have e1 : c3bpm1 = b1 := by unfold c3bpm1; rw [h1]; rfl
  have e2 : c3bpm2 = b2 := by unfold c3bpm2; rw [e1, h2]
  have e3 : c3bpmF = bF := by unfold c3bpmF; rw [e2, hf]; rfl
  rw [e3, e2]
  exact ⟨hnone, hsome, hpin⟩
